import Mathlib

/-!
Verification of the eXeViewer in-browser virtual file server (`src/sw.js`
and `src/js/zip.worker.js`) against its natural-language specification.

Shallow embedding conventions:
* JavaScript strings are modelled as `List Char`; binary payloads are
  modelled at the decoded-text level (also `List Char`), since every
  operation the claims touch treats them as text or as opaque data.
* The insertion-ordered JavaScript `Map` built from `Object.entries` is
  modelled as an association list `List (Path × Content)`; `Map.get` is
  first-match lookup and iteration is list order.  JavaScript object keys
  are unique, so where key uniqueness matters it appears as a `Nodup`
  hypothesis.
* Asynchronous IndexedDB interactions are modelled by a small environment
  type enumerating the outcomes the code distinguishes (success,
  transaction rejection, synchronous setup throw); a promise rejection is
  an `Except.error`.
* `decodeURIComponent` is modelled byte-accurately: `%XX` escapes are
  hex-decoded and the resulting byte runs are strict-UTF-8 decoded, with
  `none` standing for the `URIError` throw of the real function.
-/

namespace ExeViewer

instance {ε α : Type} [DecidableEq ε] [DecidableEq α] : DecidableEq (Except ε α) :=
  fun x y =>
    match x, y with
    | Except.ok a, Except.ok b =>
      if h : a = b then Decidable.isTrue (by rw [h])
      else Decidable.isFalse (by simp [h])
    | Except.error a, Except.error b =>
      if h : a = b then Decidable.isTrue (by rw [h])
      else Decidable.isFalse (by simp [h])
    | Except.ok _, Except.error _ => Decidable.isFalse (by simp)
    | Except.error _, Except.ok _ => Decidable.isFalse (by simp)

abbrev Path := List Char
abbrev Content := List Char

/-- `occursAtB pat s i`: the pattern `pat` occurs in `s` starting at index
`i` (JavaScript substring-match at a position). -/
def occursAtB (pat s : List Char) (i : Nat) : Bool :=
  pat.isPrefixOf (s.drop i)

/-- JavaScript `String.prototype.lastIndexOf`: the largest index at which
`pat` occurs in `s`, if any. -/
def lastIndexOf (pat s : List Char) : Option Nat :=
  (List.range (s.length + 1)).reverse.find? (fun i => occursAtB pat s i)

/-- JavaScript single-character `String.prototype.split('/')`. -/
def splitSlash : List Char → List (List Char)
  | [] => [[]]
  | c :: cs =>
    match splitSlash cs with
    | [] => [[]]
    | h :: t => if c = '/' then [] :: h :: t else (c :: h) :: t

/-- Value of a hexadecimal digit character, as accepted by the URI
percent-escape grammar. -/
def hexVal (c : Char) : Option Nat :=
  if '0' ≤ c ∧ c ≤ '9' then some (c.toNat - ('0').toNat)
  else if 'a' ≤ c ∧ c ≤ 'f' then some (c.toNat - ('a').toNat + 10)
  else if 'A' ≤ c ∧ c ≤ 'F' then some (c.toNat - ('A').toNat + 10)
  else none

/-- First pass of `decodeURIComponent`: turn every `%XX` escape into a raw
byte, pass other characters through; `none` models the `URIError` thrown
when a `%` is not followed by two hex digits. -/
def pctTokens : List Char → Option (List (Sum Nat Char))
  | [] => some []
  | '%' :: h :: l :: rest =>
    match hexVal h, hexVal l with
    | some a, some b => (pctTokens rest).map (fun t => Sum.inl (16 * a + b) :: t)
    | _, _ => none
  | '%' :: _ => none
  | c :: rest => (pctTokens rest).map (fun t => Sum.inr c :: t)

/-- Is a byte a UTF-8 continuation byte? -/
def isCont (b : Nat) : Bool := decide (0x80 ≤ b ∧ b ≤ 0xBF)

/-- Second pass of `decodeURIComponent`, following the ECMA-262 `Decode`
algorithm: a raw character passes through; an escape-produced byte below
`0x80` is an ASCII character; a multi-byte UTF-8 lead byte must be
followed immediately by its escape-produced continuation bytes, with
strict validation (no truncated sequences, overlong encodings, surrogates
or values above `U+10FFFF`); anything else throws (`none`). -/
def decodeTokens : List (Sum Nat Char) → Option (List Char)
  | [] => some []
  | Sum.inr c :: rest => (decodeTokens rest).map (fun cs => c :: cs)
  | Sum.inl b :: rest =>
    if b ≤ 0x7F then (decodeTokens rest).map (fun cs => Char.ofNat b :: cs)
    else if 0xC2 ≤ b ∧ b ≤ 0xDF then
      match rest with
      | Sum.inl b1 :: rest2 =>
        if isCont b1 then
          (decodeTokens rest2).map (fun cs =>
            Char.ofNat ((b - 0xC0) * 64 + (b1 - 0x80)) :: cs)
        else none
      | _ => none
    else if 0xE0 ≤ b ∧ b ≤ 0xEF then
      match rest with
      | Sum.inl b1 :: Sum.inl b2 :: rest3 =>
        if (if b = 0xE0 then 0xA0 ≤ b1 ∧ b1 ≤ 0xBF
            else if b = 0xED then 0x80 ≤ b1 ∧ b1 ≤ 0x9F
            else 0x80 ≤ b1 ∧ b1 ≤ 0xBF) ∧ isCont b2 = true then
          (decodeTokens rest3).map (fun cs =>
            Char.ofNat ((b - 0xE0) * 4096 + (b1 - 0x80) * 64 + (b2 - 0x80)) :: cs)
        else none
      | _ => none
    else if 0xF0 ≤ b ∧ b ≤ 0xF4 then
      match rest with
      | Sum.inl b1 :: Sum.inl b2 :: Sum.inl b3 :: rest4 =>
        if (if b = 0xF0 then 0x90 ≤ b1 ∧ b1 ≤ 0xBF
            else if b = 0xF4 then 0x80 ≤ b1 ∧ b1 ≤ 0x8F
            else 0x80 ≤ b1 ∧ b1 ≤ 0xBF) ∧ isCont b2 = true ∧ isCont b3 = true then
          (decodeTokens rest4).map (fun cs =>
            Char.ofNat ((b - 0xF0) * 262144 + (b1 - 0x80) * 4096
              + (b2 - 0x80) * 64 + (b3 - 0x80)) :: cs)
        else none
      | _ => none
    else none

/-- `decodeURIComponent`, with `none` for the thrown `URIError`. -/
def decodeURIComponent (s : List Char) : Option (List Char) :=
  match pctTokens s with
  | some toks => decodeTokens toks
  | none => none

/-!
## Archive Extractor (`src/js/zip.worker.js`)
-/

/-- `findCommonPrefix` from `zip.worker.js`: among the HTML entries, find
the one equal to `index.html` or ending in `/index.html`; if splitting it
on `/` yields exactly two parts, the first part plus `/` is the common
prefix, otherwise there is none. -/
def findCommonPrefix (fileList : List Path) : Path :=
  let htmlFiles := fileList.filter
    (fun f => (".html").data.isSuffixOf f || (".htm").data.isSuffixOf f)
  if htmlFiles.length = 0 then [] else
  match htmlFiles.find?
      (fun f => f == ("index.html").data || ("/index.html").data.isSuffixOf f) with
  | some indexFile =>
    if indexFile ≠ [] ∧ indexFile.contains '/' then
      let parts := splitSlash indexFile
      if parts.length = 2 then parts.headD [] ++ [('/')] else []
    else []
  | none => []

/-- The extraction loop of `self.onmessage` in `zip.worker.js`: skip
zero-length (directory) entries, strip the common prefix from every path
that starts with it, skip entries whose normalized path is empty. -/
def extractFiles (entries : List (Path × Content)) : List (Path × Content) :=
  let pfx := findCommonPrefix (entries.map Prod.fst)
  entries.filterMap (fun e =>
    if e.2.length = 0 then none
    else
      let normalizedPath :=
        if pfx ≠ [] ∧ pfx.isPrefixOf e.1 then e.1.drop pfx.length else e.1
      if normalizedPath = [] then none else some (normalizedPath, e.2))

/-!
## Content Store (`src/sw.js`, module state and `handleViewerRequest`)
-/

/-- `Map.get` over the insertion-ordered content map. -/
def mapGet (files : List (Path × Content)) (k : Path) : Option Content :=
  (files.find? (fun e => e.1 == k)).map Prod.snd

/-- The directory-fallback key of step (2) of the lookup:
`path + 'index.html'` after a trailing slash, else `path + '/index.html'`. -/
def indexCandidate (filePath : Path) : Path :=
  if [('/')].isSuffixOf filePath
  then filePath ++ ("index.html").data
  else filePath ++ ("/index.html").data

/-- The case-insensitive linear scan of step (3): first key (in iteration
order) equal to the requested path up to `toLowerCase` (modelled with
ASCII lowercasing, which agrees with JavaScript on the ASCII paths
archives contain). -/
def ciScan (files : List (Path × Content)) (filePath : Path) : Option Content :=
  (files.find?
    (fun e => e.1.map Char.toLower == filePath.map Char.toLower)).map Prod.snd

/-- The path-resolution performed inline by `handleViewerRequest`
(sw.js lines 605–624): exact `Map.get`; if that misses and the path has no
`.`, `Map.get` on the directory-fallback key; if that misses too, the
case-insensitive scan. -/
def lookup (files : List (Path × Content)) (filePath : Path) : Option Content :=
  let fileData := mapGet files filePath
  let fileData :=
    match fileData with
    | some v => some v
    | none =>
      if ¬ filePath.contains '.' then mapGet files (indexCandidate filePath)
      else none
  match fileData with
  | some v => some v
  | none => ciScan files filePath

/-- The lookup procedure as the specification words it: (1) exact match
against the stored keys; (2) only if the path has no extension (no `.` in
the path), the directory-fallback key; (3) case-insensitive linear scan,
first match in iteration order winning; otherwise not found. -/
def lookupSpec (files : List (Path × Content)) (filePath : Path) : Option Content :=
  (mapGet files filePath).orElse (fun _ =>
    (if ¬ filePath.contains '.' then mapGet files (indexCandidate filePath)
     else none).orElse (fun _ => ciScan files filePath))

/-!
## MIME table and Content Transformer (`src/sw.js`)
-/

/-- The static `MIME_TYPES` table of `sw.js`. -/
def MIME_TYPES : List (List Char × List Char) :=
  [ ((".html").data, ("text/html; charset=utf-8").data)
  , ((".htm").data, ("text/html; charset=utf-8").data)
  , ((".css").data, ("text/css; charset=utf-8").data)
  , ((".js").data, ("application/javascript; charset=utf-8").data)
  , ((".mjs").data, ("application/javascript; charset=utf-8").data)
  , ((".json").data, ("application/json; charset=utf-8").data)
  , ((".png").data, ("image/png").data)
  , ((".jpg").data, ("image/jpeg").data)
  , ((".jpeg").data, ("image/jpeg").data)
  , ((".gif").data, ("image/gif").data)
  , ((".svg").data, ("image/svg+xml").data)
  , ((".ico").data, ("image/x-icon").data)
  , ((".webp").data, ("image/webp").data)
  , ((".woff").data, ("font/woff").data)
  , ((".woff2").data, ("font/woff2").data)
  , ((".ttf").data, ("font/ttf").data)
  , ((".eot").data, ("application/vnd.ms-fontobject").data)
  , ((".otf").data, ("font/otf").data)
  , ((".mp3").data, ("audio/mpeg").data)
  , ((".mp4").data, ("video/mp4").data)
  , ((".webm").data, ("video/webm").data)
  , ((".ogg").data, ("audio/ogg").data)
  , ((".ogv").data, ("video/ogg").data)
  , ((".wav").data, ("audio/wav").data)
  , ((".pdf").data, ("application/pdf").data)
  , ((".xml").data, ("application/xml").data)
  , ((".xhtml").data, ("application/xhtml+xml").data)
  , ((".txt").data, ("text/plain; charset=utf-8").data)
  , ((".csv").data, ("text/csv; charset=utf-8").data)
  , ((".zip").data, ("application/zip").data)
  , ((".swf").data, ("application/x-shockwave-flash").data) ]

/-- `getMimeType` from `sw.js`: the lowercased tail of the filename from
its last `.` (`substring(-1)` clamps to the whole string when there is no
dot), looked up in `MIME_TYPES`, defaulting to `application/octet-stream`. -/
def getMimeType (filename : Path) : List Char :=
  let ext :=
    match lastIndexOf [('.')] filename with
    | some i => filename.drop i
    | none => filename
  let ext := ext.map Char.toLower
  match (MIME_TYPES.find? (fun e => e.1 == ext)).map Prod.snd with
  | some m => m
  | none => ("application/octet-stream").data

/-- The `EXTERNAL_LINK_HANDLER_SCRIPT` template literal of `sw.js`
(braces and apostrophes written as hexadecimal escapes). -/
def EXTERNAL_LINK_HANDLER_SCRIPT : List Char :=
  ("\n<script data-injected-by=\"eXeViewer\">\n(function() \x7b\n    document.addEventListener(\x27click\x27, function(e) \x7b\n        var link = e.target.closest(\x27a[href]\x27);\n        if (!link) return;\n\n        var href = link.getAttribute(\x27href\x27);\n        if (!href) return;\n\n        // Check if it\x27s an external link (starts with http:// or https:// and different origin)\n        try \x7b\n            var url = new URL(href, window.location.href);\n            var isExternal = (url.protocol === \x27http:\x27 || url.protocol === \x27https:\x27) &&\n                             url.origin !== window.location.origin;\n\n            if (isExternal) \x7b\n                e.preventDefault();\n                e.stopPropagation();\n                window.open(href, \x27_blank\x27, \x27noopener,noreferrer\x27);\n            \x7d\n        \x7d catch (err) \x7b\n            // Invalid URL, let browser handle it\n        \x7d\n    \x7d, true);\n\x7d)();\n</script>\n").data

/-- The closing tag searched first by the transformer. -/
def bodyCloseTag : List Char := ("</body>").data

/-- The closing tag searched second by the transformer. -/
def htmlCloseTag : List Char := ("</html>").data

/-- The string-manipulation core of `injectExternalLinkHandler` (the part
between `decoder.decode` and `encoder.encode`): splice the script at
`lastIndexOf('</body>')`, else at `lastIndexOf('</html>')`, else append. -/
def injectIntoHtmlText (html : List Char) : List Char :=
  let bodyCloseIndex := lastIndexOf bodyCloseTag html
  let htmlCloseIndex := lastIndexOf htmlCloseTag html
  let insertIndex :=
    match bodyCloseIndex with
    | some i => some i
    | none => htmlCloseIndex
  match insertIndex with
  | some i => html.take i ++ EXTERNAL_LINK_HANDLER_SCRIPT ++ html.drop i
  | none => html ++ EXTERNAL_LINK_HANDLER_SCRIPT

/-- The code point emitted by `TextDecoder` for each maximal ill-formed
subpart of the input (U+FFFD). -/
def replacementChar : Char := Char.ofNat 0xFFFD

/-- The UTF-8 decode loop of `new TextDecoder('utf-8')` with its default
non-fatal error mode, following the WHATWG Encoding specification: valid
sequences (strict: no truncation, overlong forms, surrogates or values
above `U+10FFFF`) decode to their scalar; an unexpected byte emits
`U+FFFD`, and a continuation byte that breaks off a sequence is
reprocessed from scratch after the replacement is emitted.  The `Nat`
argument is structural fuel: one unit is consumed per emitted code point
while at least one byte is, so starting the fuel at the byte count (as
`textDecodeLoop` does) keeps the zero-fuel branch unreachable. -/
def textDecodeGo : Nat → List Nat → List Char
  | _, [] => []
  | 0, _ :: _ => []
  | Nat.succ f, b :: bs =>
    if b ≤ 0x7F then Char.ofNat b :: textDecodeGo f bs
    else if 0xC2 ≤ b ∧ b ≤ 0xDF then
      match bs with
      | b1 :: bs1 =>
        if isCont b1 then
          Char.ofNat ((b - 0xC0) * 64 + (b1 - 0x80)) :: textDecodeGo f bs1
        else replacementChar :: textDecodeGo f bs
      | [] => [replacementChar]
    else if 0xE0 ≤ b ∧ b ≤ 0xEF then
      match bs with
      | b1 :: bs1 =>
        if (if b = 0xE0 then 0xA0 ≤ b1 ∧ b1 ≤ 0xBF
            else if b = 0xED then 0x80 ≤ b1 ∧ b1 ≤ 0x9F
            else 0x80 ≤ b1 ∧ b1 ≤ 0xBF) then
          match bs1 with
          | b2 :: bs2 =>
            if isCont b2 then
              Char.ofNat ((b - 0xE0) * 4096 + (b1 - 0x80) * 64 + (b2 - 0x80))
                :: textDecodeGo f bs2
            else replacementChar :: textDecodeGo f bs1
          | [] => [replacementChar]
        else replacementChar :: textDecodeGo f bs
      | [] => [replacementChar]
    else if 0xF0 ≤ b ∧ b ≤ 0xF4 then
      match bs with
      | b1 :: bs1 =>
        if (if b = 0xF0 then 0x90 ≤ b1 ∧ b1 ≤ 0xBF
            else if b = 0xF4 then 0x80 ≤ b1 ∧ b1 ≤ 0x8F
            else 0x80 ≤ b1 ∧ b1 ≤ 0xBF) then
          match bs1 with
          | b2 :: bs2 =>
            if isCont b2 then
              match bs2 with
              | b3 :: bs3 =>
                if isCont b3 then
                  Char.ofNat ((b - 0xF0) * 262144 + (b1 - 0x80) * 4096
                      + (b2 - 0x80) * 64 + (b3 - 0x80)) :: textDecodeGo f bs3
                else replacementChar :: textDecodeGo f bs2
              | [] => [replacementChar]
            else replacementChar :: textDecodeGo f bs1
          | [] => [replacementChar]
        else replacementChar :: textDecodeGo f bs
      | [] => [replacementChar]
    else replacementChar :: textDecodeGo f bs

/-- The decode loop at its entry point, with fuel covering the whole
stream. -/
def textDecodeLoop (bytes : List Nat) : List Char :=
  textDecodeGo bytes.length bytes

/-- `decoder.decode(body)` for `new TextDecoder('utf-8')`: with the
default `ignoreBOM: false`, a leading `EF BB BF` byte-order mark is
consumed (and not re-emitted); then the non-fatal decode loop runs. -/
def textDecode (bytes : List Nat) : List Char :=
  match bytes with
  | b0 :: b1 :: b2 :: rest =>
    if b0 = 0xEF ∧ b1 = 0xBB ∧ b2 = 0xBF then textDecodeLoop rest
    else textDecodeLoop bytes
  | _ => textDecodeLoop bytes

/-- `TextEncoder.encode` on one scalar value: standard UTF-8. -/
def utf8EncodeChar (c : Char) : List Nat :=
  let n := c.toNat
  if n ≤ 0x7F then [n]
  else if n ≤ 0x7FF then [0xC0 + n / 64, 0x80 + n % 64]
  else if n ≤ 0xFFFF then
    [0xE0 + n / 4096, 0x80 + (n / 64) % 64, 0x80 + n % 64]
  else
    [0xF0 + n / 262144, 0x80 + (n / 4096) % 64, 0x80 + (n / 64) % 64, 0x80 + n % 64]

/-- `TextEncoder.encode` on a string. -/
def utf8Encode : List Char → List Nat
  | [] => []
  | c :: cs => utf8EncodeChar c ++ utf8Encode cs

/-- `injectExternalLinkHandler` from `sw.js`, at the byte level: decode
the body with the non-fatal UTF-8 `TextDecoder` (consuming a leading BOM
and substituting `U+FFFD` for ill-formed bytes), splice the script into
the resulting text, and re-encode with `TextEncoder`.  Neither the
decoder (non-fatal) nor the encoder throws, so the `catch` is never
reached. -/
def injectExternalLinkHandler (body : List Nat) : List Nat :=
  utf8Encode (injectIntoHtmlText (textDecode body))

/-!
## Persistence layer (`saveToIndexedDB` / `loadFromIndexedDB` in `src/sw.js`)

The IndexedDB interaction is external I/O; its outcomes are modelled by
small environment types listing exactly the cases the code distinguishes.
-/

/-- Outcome of the IndexedDB machinery during a save:
everything succeeded; the transaction fired `onerror`/`onabort` with an
error (name, message); or opening/queuing threw synchronously. -/
inductive SaveEnv where
  | ok : SaveEnv
  | txFail (name msg : String) : SaveEnv
  | setupFail (name msg : String) : SaveEnv
deriving DecidableEq

/-- JavaScript `String.prototype.includes`: the pattern occurs somewhere
in the string. -/
def includesSub (pat s : List Char) : Bool :=
  (lastIndexOf pat s).isSome

/-- The quota test used in `sw.js` (twice):
`err.name === 'QuotaExceededError' || (err.message && err.message.includes('quota'))`. -/
def isQuotaError (name msg : String) : Bool :=
  name == ("QuotaExceededError") || includesSub (("quota").data) msg.data

/-- Result object of `saveToIndexedDB` (`{success, error?}`). -/
structure SaveResult where
  success : Bool
  error : Option String
deriving DecidableEq

/-- `saveToIndexedDB` from `sw.js`: resolves `{success: true}` on commit;
rejects (propagates the error) when the transaction errors or aborts; the
synchronous `catch` returns `{success: false, error}` with
`QUOTA_EXCEEDED` for quota errors and `err.message || 'UNKNOWN_ERROR'`
otherwise. -/
def saveToIndexedDB : SaveEnv → Except (String × String) SaveResult
  | SaveEnv.ok => Except.ok ⟨true, none⟩
  | SaveEnv.txFail n m => Except.error (n, m)
  | SaveEnv.setupFail n m =>
    if isQuotaError n m then Except.ok ⟨false, some ("QUOTA_EXCEEDED")⟩
    else Except.ok ⟨false, some (if m = ("") then ("UNKNOWN_ERROR") else m)⟩

/-- Outcome of the IndexedDB machinery during a load: a successful read
(with the two optional stored values), a failure while opening/setting up
(caught by the `catch`), or a transaction error after setup. -/
inductive LoadEnv where
  | ok (content : Option (List (Path × Content))) (options : Option Bool) : LoadEnv
  | openFail (name msg : String) : LoadEnv
  | txFail (name msg : String) : LoadEnv

/-- `loadFromIndexedDB` from `sw.js`.  The `catch` turns failures of
`openDB()` and of transaction setup into `{files: null, options: null}`,
but a rejection raised by `tx.onerror` inside the returned promise is not
caught anywhere: it propagates as a rejection (`Except.error`). -/
def loadFromIndexedDB :
    LoadEnv → Except (String × String) (Option (List (Path × Content)) × Option Bool)
  | LoadEnv.ok c o => Except.ok (c, o)
  | LoadEnv.openFail _ _ => Except.ok (none, none)
  | LoadEnv.txFail n m => Except.error (n, m)

/-!
## Serving state and message handling (`src/sw.js`)
-/

/-- `contentOptions` (only field: `openExternalLinksInNewWindow`). -/
structure ContentOptions where
  openExternalLinksInNewWindow : Bool
deriving DecidableEq

/-- The module-level state of the service worker: `contentFiles`,
`contentReady`, `contentOptions`. -/
structure SWState where
  contentFiles : List (Path × Content)
  contentReady : Bool
  contentOptions : ContentOptions
deriving DecidableEq

/-- The state at worker start: empty map, not ready, default options. -/
def initialState : SWState :=
  { contentFiles := [], contentReady := false
  , contentOptions := { openExternalLinksInNewWindow := true } }

/-- The `CONTENT_READY` acknowledgment posted back after `SET_CONTENT`. -/
structure ContentReadyMsg where
  fileCount : Nat
  storageError : Option String
deriving DecidableEq

/-- The `STATUS` reply to `GET_STATUS`. -/
structure StatusMsg where
  ready : Bool
  fileCount : Nat
  version : String
deriving DecidableEq

/-- The `SET_CONTENT` branch of the message listener in `sw.js`:
replace `contentFiles`, set `contentReady`, spread `data.options` over the
current options when present (with a single option field this is a
replacement), then persist; the acknowledgment carries `fileCount` and,
when the save resolved with `success === false` or rejected, a
`storageError` (quota rejections classified as `QUOTA_EXCEEDED`, other
rejections as `STORAGE_ERROR`). -/
def handleSetContent (st : SWState) (files : List (Path × Content))
    (dataOptions : Option ContentOptions) (env : SaveEnv) :
    SWState × ContentReadyMsg :=
  let st' : SWState :=
    { contentFiles := files
    , contentReady := true
    , contentOptions :=
        match dataOptions with
        | some o => o
        | none => st.contentOptions }
  let ack : ContentReadyMsg :=
    match saveToIndexedDB env with
    | Except.ok r =>
      if r.success = false then ⟨files.length, r.error⟩
      else ⟨files.length, none⟩
    | Except.error e =>
      ⟨files.length,
       some (if isQuotaError e.1 e.2 then ("QUOTA_EXCEEDED") else ("STORAGE_ERROR"))⟩
  (st', ack)

/-- The `CLEAR_CONTENT` branch: empty the map and drop readiness. -/
def handleClearContent (st : SWState) : SWState :=
  { st with contentFiles := [], contentReady := false }

/-- The `GET_STATUS` branch: report `{ready, fileCount, version}`. -/
def handleGetStatus (st : SWState) : StatusMsg :=
  ⟨st.contentReady, st.contentFiles.length, ("1.7.0")⟩

/-!
## The virtual file server (`handleViewerRequest` in `src/sw.js`)
-/

/-- A synthesized HTTP response (status, `Content-Type` header, body). -/
structure SWResponse where
  status : Nat
  contentType : List Char
  body : List Char
deriving DecidableEq

/-- The path-extraction steps of `handleViewerRequest` before decoding:
drop everything through `/viewer/`, substitute `index.html` for an empty
or `/` remainder, then strip one leading slash. -/
def rawFilePath (pathname : List Char) (viewerIndex : Nat) : List Char :=
  let filePath := pathname.drop (viewerIndex + 8)
  let filePath :=
    if filePath = [] ∨ filePath = [('/')] then ("index.html").data else filePath
  if [('/')].isPrefixOf filePath then filePath.drop 1 else filePath

/-- The body of the 503 response. -/
def notLoadedBody : List Char :=
  ("Content not loaded. Please upload a ZIP file first.").data

/-- The serving core of `handleViewerRequest`, after the decoded file path
is in hand: 503 when not ready or empty, then `lookup`, then either a 200
(HTML passed through the transformer when enabled) or a 404 naming the
path.  Stored contents are modelled at the decoded-text level here, so
the 200 branch applies the transformer's text core `injectIntoHtmlText`;
the byte-level transformer `injectExternalLinkHandler` is what the
transformer claims are stated about. -/
def serveFile (st : SWState) (filePath : Path) : SWResponse :=
  if st.contentReady = false ∨ st.contentFiles.length = 0 then
    ⟨503, ("text/plain").data, notLoadedBody⟩
  else
    match lookup st.contentFiles filePath with
    | some fileData =>
      let mimeType := getMimeType filePath
      let body :=
        if ("text/html").data.isPrefixOf mimeType
            ∧ st.contentOptions.openExternalLinksInNewWindow = true
        then injectIntoHtmlText fileData
        else fileData
      ⟨200, mimeType, body⟩
    | none =>
      ⟨404, ("text/plain").data, ("File not found: ").data ++ filePath⟩

/-- `handleViewerRequest` from `sw.js`: extract and percent-decode the
virtual file path, then serve.  `decodeURIComponent` throws on a malformed
escape, which rejects the handler's promise: modelled as `Except.error`. -/
def handleViewerRequest (st : SWState) (pathname : List Char)
    (viewerIndex : Nat) : Except Unit SWResponse :=
  match decodeURIComponent (rawFilePath pathname viewerIndex) with
  | none => Except.error ()
  | some filePath => Except.ok (serveFile st filePath)

/-!
## Specification-side definitions used to state the claims
-/

/-- The common-prefix rule as the specification words it: find the entry
path equal to `index.html` or ending in `/index.html` among the HTML
entries; exactly when it contains exactly one path separator, the prefix
is its first segment plus `/`. -/
def commonPrefixSpec (fileList : List Path) : Path :=
  let htmlFiles := fileList.filter
    (fun f => (".html").data.isSuffixOf f || (".htm").data.isSuffixOf f)
  match htmlFiles.find?
      (fun f => f == ("index.html").data || ("/index.html").data.isSuffixOf f) with
  | some indexFile =>
    if indexFile.count '/' = 1
    then indexFile.takeWhile (fun c => c != '/') ++ [('/')]
    else []
  | none => []

/-- Does a save environment amount to a storage-quota failure, under the
classification the service worker applies? -/
def envIsQuota : SaveEnv → Bool
  | SaveEnv.ok => false
  | SaveEnv.txFail n m => isQuotaError n m
  | SaveEnv.setupFail n m => isQuotaError n m

/-!
## Helper lemmas
-/

theorem find?_eq_some_of_unique {α : Type} {p : α → Bool} {l : List α} {a : α}
    (hmem : a ∈ l) (hp : p a = true)
    (huniq : ∀ b ∈ l, p b = true → b = a) : l.find? p = some a := by
  induction l with
  | nil => cases hmem
  | cons x xs ih =>
    by_cases hx : p x = true
    · have hxa : x = a := huniq x (List.mem_cons_self x xs) hx
      subst hxa
      simp [List.find?, hx]
    · have hax : a ∈ xs := by
        rcases List.mem_cons.mp hmem with h | h
        · exact absurd (h ▸ hp) hx
        · exact h
      have := ih hax (fun b hb hpb => huniq b (List.mem_cons_of_mem x hb) hpb)
      simp [List.find?, hx, this]

theorem mapGet_of_nodup_mem {files : List (Path × Content)} {k : Path} {v : Content}
    (hnd : (files.map Prod.fst).Nodup) (hmem : (k, v) ∈ files) :
    mapGet files k = some v := by
  induction files with
  | nil => cases hmem
  | cons e es ih =>
    rcases List.mem_cons.mp hmem with h | h
    · subst h
      simp [mapGet, List.find?]
    · have hknd : e.1 ∉ es.map Prod.fst := (List.nodup_cons.mp hnd).1
      have hk : k ∈ es.map Prod.fst := List.mem_map.mpr ⟨(k, v), h, rfl⟩
      have hne : (e.1 == k) = false := by
        rw [beq_eq_false_iff_ne]
        intro hek
        apply hknd
        rw [hek]
        exact hk
      have htail := ih (List.nodup_cons.mp hnd).2 h
      simpa [mapGet, List.find?, hne] using htail

theorem occursAtB_lt_length {pat s : List Char} {i : Nat}
    (hpat : pat ≠ []) (h : occursAtB pat s i = true) : i < s.length := by
  by_contra hge
  push_neg at hge
  have hdrop : s.drop i = [] := List.drop_eq_nil_of_le hge
  unfold occursAtB at h
  rw [hdrop] at h
  have := List.isPrefixOf_iff_prefix.mp h
  exact hpat (List.prefix_nil.mp this)

theorem occursAtB_at_append (a pat b : List Char) :
    occursAtB pat (a ++ pat ++ b) a.length = true := by
  unfold occursAtB
  rw [List.append_assoc, List.drop_left]
  exact List.isPrefixOf_iff_prefix.mpr (List.prefix_append pat b)

theorem lastIndexOf_eq_some {pat s : List Char} {i : Nat} (hpat : pat ≠ [])
    (hocc : occursAtB pat s i = true)
    (huniq : ∀ j < s.length, occursAtB pat s j = true → j = i) :
    lastIndexOf pat s = some i := by
  unfold lastIndexOf
  apply find?_eq_some_of_unique
  · rw [List.mem_reverse, List.mem_range]
    exact Nat.lt_succ_of_lt (occursAtB_lt_length hpat hocc)
  · exact hocc
  · intro j hj hpj
    rw [List.mem_reverse, List.mem_range] at hj
    exact huniq j (occursAtB_lt_length hpat hpj) hpj

theorem lastIndexOf_eq_none {pat s : List Char} (hpat : pat ≠ [])
    (h : ∀ j < s.length, occursAtB pat s j = false) :
    lastIndexOf pat s = none := by
  unfold lastIndexOf
  rw [List.find?_eq_none]
  intro j hj hpj
  rw [List.mem_reverse, List.mem_range] at hj
  have hjlt : j < s.length := occursAtB_lt_length hpat hpj
  rw [h j hjlt] at hpj
  cases hpj

theorem splitSlash_ne_nil (l : List Char) : splitSlash l ≠ [] := by
  cases l with
  | nil => simp [splitSlash]
  | cons c cs =>
    unfold splitSlash
    cases splitSlash cs with
    | nil => simp
    | cons h t =>
      by_cases hc : c = '/' <;> simp [hc]

theorem splitSlash_length (l : List Char) :
    (splitSlash l).length = l.count '/' + 1 := by
  induction l with
  | nil => simp [splitSlash]
  | cons c cs ih =>
    unfold splitSlash
    rcases hs : splitSlash cs with _ | ⟨h, t⟩
    · exact absurd hs (splitSlash_ne_nil cs)
    · rw [hs] at ih
      by_cases hc : c = '/'
      · simp only [hc, if_pos rfl, List.length_cons]
        rw [List.count_cons]
        simp [ih]
      · simp only [if_neg hc, List.length_cons]
        rw [List.count_cons]
        have hb : (c == '/') = false := by simpa using hc
        simp only [List.length_cons] at ih
        simp [hb, ih]

theorem splitSlash_headD (l : List Char) :
    (splitSlash l).headD [] = l.takeWhile (fun c => c != '/') := by
  induction l with
  | nil => simp [splitSlash, List.takeWhile]
  | cons c cs ih =>
    unfold splitSlash
    rcases hs : splitSlash cs with _ | ⟨h, t⟩
    · exact absurd hs (splitSlash_ne_nil cs)
    · rw [hs] at ih
      by_cases hc : c = '/'
      · simp [hc, List.takeWhile]
      · have hb : (c != '/') = true := by simpa using hc
        simp only [if_neg hc, List.headD_cons, List.takeWhile]
        rw [hb]
        simp only [List.headD_cons] at ih
        rw [ih]

/-- Shared serving fact: when the worker is not ready or the map is empty,
any viewer request whose path decodes is answered with the 503 response. -/
theorem handleViewerRequest_not_ready {st : SWState} {pathname : List Char}
    {i : Nat} {p : Path}
    (hdec : decodeURIComponent (rawFilePath pathname i) = some p)
    (hnr : st.contentReady = false ∨ st.contentFiles = []) :
    handleViewerRequest st pathname i =
      Except.ok ⟨503, ("text/plain").data, notLoadedBody⟩ := by
  have hcond : st.contentReady = false ∨ st.contentFiles.length = 0 := by
    rcases hnr with h | h
    · exact Or.inl h
    · exact Or.inr (by rw [h]; rfl)
  simp only [handleViewerRequest, hdec, serveFile]
  rw [if_pos hcond]

/-- Shared lookup fact: an exact `Map.get` hit is returned by `lookup`. -/
theorem lookup_of_mapGet {files : List (Path × Content)} {k : Path} {v : Content}
    (h : mapGet files k = some v) : lookup files k = some v := by
  simp only [lookup, h]

/-- Splice fact: with a unique `</body>` occurrence the text core inserts
the script exactly there. -/
theorem injectIntoHtmlText_body (a b : List Char)
    (huniq : ∀ j < (a ++ bodyCloseTag ++ b).length,
        occursAtB bodyCloseTag (a ++ bodyCloseTag ++ b) j = true → j = a.length) :
    injectIntoHtmlText (a ++ bodyCloseTag ++ b)
      = a ++ EXTERNAL_LINK_HANDLER_SCRIPT ++ (bodyCloseTag ++ b) := by
  have hocc := occursAtB_at_append a bodyCloseTag b
  have hlast : lastIndexOf bodyCloseTag (a ++ bodyCloseTag ++ b) = some a.length :=
    lastIndexOf_eq_some (by decide) hocc (fun j hj hpj => huniq j hj hpj)
  unfold injectIntoHtmlText
  rw [hlast]
  show (a ++ bodyCloseTag ++ b).take a.length ++ EXTERNAL_LINK_HANDLER_SCRIPT
      ++ (a ++ bodyCloseTag ++ b).drop a.length = _
  rw [List.append_assoc a bodyCloseTag b, List.take_left, List.drop_left]

/-- Splice fact: with no `</body>` and a unique `</html>`, the text core
inserts the script before the `</html>`. -/
theorem injectIntoHtmlText_html (a b : List Char)
    (hnb : ∀ j < (a ++ htmlCloseTag ++ b).length,
        occursAtB bodyCloseTag (a ++ htmlCloseTag ++ b) j = false)
    (huniq : ∀ j < (a ++ htmlCloseTag ++ b).length,
        occursAtB htmlCloseTag (a ++ htmlCloseTag ++ b) j = true → j = a.length) :
    injectIntoHtmlText (a ++ htmlCloseTag ++ b)
      = a ++ EXTERNAL_LINK_HANDLER_SCRIPT ++ (htmlCloseTag ++ b) := by
  have hnone : lastIndexOf bodyCloseTag (a ++ htmlCloseTag ++ b) = none :=
    lastIndexOf_eq_none (by decide) hnb
  have hocc := occursAtB_at_append a htmlCloseTag b
  have hlast : lastIndexOf htmlCloseTag (a ++ htmlCloseTag ++ b) = some a.length :=
    lastIndexOf_eq_some (by decide) hocc (fun j hj hpj => huniq j hj hpj)
  unfold injectIntoHtmlText
  rw [hnone, hlast]
  show (a ++ htmlCloseTag ++ b).take a.length ++ EXTERNAL_LINK_HANDLER_SCRIPT
      ++ (a ++ htmlCloseTag ++ b).drop a.length = _
  rw [List.append_assoc a htmlCloseTag b, List.take_left, List.drop_left]

/-- Splice fact: with neither closing tag the text core appends the
script. -/
theorem injectIntoHtmlText_append (s : List Char)
    (hnb : ∀ j < s.length, occursAtB bodyCloseTag s j = false)
    (hnh : ∀ j < s.length, occursAtB htmlCloseTag s j = false) :
    injectIntoHtmlText s = s ++ EXTERNAL_LINK_HANDLER_SCRIPT := by
  have h1 : lastIndexOf bodyCloseTag s = none := lastIndexOf_eq_none (by decide) hnb
  have h2 : lastIndexOf htmlCloseTag s = none := lastIndexOf_eq_none (by decide) hnh
  unfold injectIntoHtmlText
  rw [h1, h2]

theorem utf8Encode_append (x y : List Char) :
    utf8Encode (x ++ y) = utf8Encode x ++ utf8Encode y := by
  induction x with
  | nil => rfl
  | cons c cs ih => simp [utf8Encode, ih, List.append_assoc]

theorem utf8EncodeChar_length_pos (c : Char) : 1 ≤ (utf8EncodeChar c).length := by
  simp only [utf8EncodeChar]
  split_ifs <;> simp

/-- Decoding a well-formed encoded scalar at the head of the stream
yields that scalar and continues with the rest of the stream (consuming
one unit of fuel). -/
theorem textDecodeGo_encodeChar (c : Char) (f : Nat) (bs : List Nat) :
    textDecodeGo (f + 1) (utf8EncodeChar c ++ bs) = c :: textDecodeGo f bs := by
  have hv : c.toNat < 0xd800 ∨ (0xdfff < c.toNat ∧ c.toNat < 0x110000) := c.valid
  have hofnat := Char.ofNat_toNat c
  unfold utf8EncodeChar
  by_cases h1 : c.toNat ≤ 0x7F
  · simp only [if_pos h1, List.cons_append, List.nil_append]
    conv_lhs => unfold textDecodeGo
    rw [if_pos h1, hofnat]
  · by_cases h2 : c.toNat ≤ 0x7FF
    · have hb : ¬ (0xC0 + c.toNat / 64 ≤ 0x7F) := by omega
      have hr : 0xC2 ≤ 0xC0 + c.toNat / 64 ∧ 0xC0 + c.toNat / 64 ≤ 0xDF := by
        constructor <;> omega
      have hcont : isCont (0x80 + c.toNat % 64) = true := by
        simp only [isCont, decide_eq_true_eq]
        omega
      have harith : (0xC0 + c.toNat / 64 - 0xC0) * 64 + (0x80 + c.toNat % 64 - 0x80)
          = c.toNat := by omega
      simp only [if_neg h1, if_pos h2, List.cons_append, List.nil_append]
      conv_lhs => unfold textDecodeGo
      rw [if_neg hb, if_pos hr]
      dsimp only
      simp only [hcont, if_true, harith, hofnat]
    · by_cases h3 : c.toNat ≤ 0xFFFF
      · have hb : ¬ (0xE0 + c.toNat / 4096 ≤ 0x7F) := by omega
        have hr2 : ¬ (0xC2 ≤ 0xE0 + c.toNat / 4096 ∧ 0xE0 + c.toNat / 4096 ≤ 0xDF) := by
          omega
        have hr3 : 0xE0 ≤ 0xE0 + c.toNat / 4096 ∧ 0xE0 + c.toNat / 4096 ≤ 0xEF := by
          constructor <;> omega
        have hbound : (if 0xE0 + c.toNat / 4096 = 0xE0
              then 0xA0 ≤ 0x80 + c.toNat / 64 % 64 ∧ 0x80 + c.toNat / 64 % 64 ≤ 0xBF
              else if 0xE0 + c.toNat / 4096 = 0xED
              then 0x80 ≤ 0x80 + c.toNat / 64 % 64 ∧ 0x80 + c.toNat / 64 % 64 ≤ 0x9F
              else 0x80 ≤ 0x80 + c.toNat / 64 % 64 ∧ 0x80 + c.toNat / 64 % 64 ≤ 0xBF) := by
          by_cases he0 : 0xE0 + c.toNat / 4096 = 0xE0
          · rw [if_pos he0]
            constructor <;> omega
          · rw [if_neg he0]
            by_cases hed : 0xE0 + c.toNat / 4096 = 0xED
            · rw [if_pos hed]
              constructor <;> omega
            · rw [if_neg hed]
              constructor <;> omega
        have hcont : isCont (0x80 + c.toNat % 64) = true := by
          simp only [isCont, decide_eq_true_eq]
          omega
        have harith : (0xE0 + c.toNat / 4096 - 0xE0) * 4096
            + (0x80 + c.toNat / 64 % 64 - 0x80) * 64 + (0x80 + c.toNat % 64 - 0x80)
            = c.toNat := by omega
        simp only [if_neg h1, if_neg h2, if_pos h3, List.cons_append, List.nil_append]
        conv_lhs => unfold textDecodeGo
        rw [if_neg hb, if_neg hr2, if_pos hr3]
        dsimp only
        rw [if_pos hbound]
        simp only [hcont, if_true, harith, hofnat]
      · have hlt : c.toNat < 0x110000 := by omega
        have hb : ¬ (0xF0 + c.toNat / 262144 ≤ 0x7F) := by omega
        have hr2 : ¬ (0xC2 ≤ 0xF0 + c.toNat / 262144
            ∧ 0xF0 + c.toNat / 262144 ≤ 0xDF) := by omega
        have hr3 : ¬ (0xE0 ≤ 0xF0 + c.toNat / 262144
            ∧ 0xF0 + c.toNat / 262144 ≤ 0xEF) := by omega
        have hr4 : 0xF0 ≤ 0xF0 + c.toNat / 262144
            ∧ 0xF0 + c.toNat / 262144 ≤ 0xF4 := by
          constructor <;> omega
        have hbound : (if 0xF0 + c.toNat / 262144 = 0xF0
              then 0x90 ≤ 0x80 + c.toNat / 4096 % 64 ∧ 0x80 + c.toNat / 4096 % 64 ≤ 0xBF
              else if 0xF0 + c.toNat / 262144 = 0xF4
              then 0x80 ≤ 0x80 + c.toNat / 4096 % 64 ∧ 0x80 + c.toNat / 4096 % 64 ≤ 0x8F
              else 0x80 ≤ 0x80 + c.toNat / 4096 % 64 ∧ 0x80 + c.toNat / 4096 % 64 ≤ 0xBF) := by
          by_cases hf0 : 0xF0 + c.toNat / 262144 = 0xF0
          · rw [if_pos hf0]
            constructor <;> omega
          · rw [if_neg hf0]
            by_cases hf4 : 0xF0 + c.toNat / 262144 = 0xF4
            · rw [if_pos hf4]
              constructor <;> omega
            · rw [if_neg hf4]
              constructor <;> omega
        have hcont2 : isCont (0x80 + c.toNat / 64 % 64) = true := by
          simp only [isCont, decide_eq_true_eq]
          omega
        have hcont3 : isCont (0x80 + c.toNat % 64) = true := by
          simp only [isCont, decide_eq_true_eq]
          omega
        have harith : (0xF0 + c.toNat / 262144 - 0xF0) * 262144
            + (0x80 + c.toNat / 4096 % 64 - 0x80) * 4096
            + (0x80 + c.toNat / 64 % 64 - 0x80) * 64 + (0x80 + c.toNat % 64 - 0x80)
            = c.toNat := by omega
        simp only [if_neg h1, if_neg h2, if_neg h3, List.cons_append, List.nil_append]
        conv_lhs => unfold textDecodeGo
        rw [if_neg hb, if_neg hr2, if_neg hr3, if_pos hr4]
        dsimp only
        rw [if_pos hbound]
        simp only [hcont2, hcont3, if_true, harith, hofnat]

theorem textDecodeGo_encode (s : List Char) : ∀ f, (utf8Encode s).length ≤ f →
    textDecodeGo f (utf8Encode s) = s := by
  induction s with
  | nil =>
    intro f _
    cases f <;> rfl
  | cons c cs ih =>
    intro f hf
    have hcl := utf8EncodeChar_length_pos c
    have hf1 : 1 ≤ f := by
      simp only [utf8Encode, List.length_append] at hf
      omega
    obtain ⟨f', rfl⟩ : ∃ f', f = f' + 1 := ⟨f - 1, by omega⟩
    show textDecodeGo (f' + 1) (utf8EncodeChar c ++ utf8Encode cs) = c :: cs
    rw [textDecodeGo_encodeChar]
    have hlen : (utf8Encode cs).length ≤ f' := by
      simp only [utf8Encode, List.length_append] at hf
      omega
    rw [ih f' hlen]

theorem textDecodeLoop_encode (s : List Char) :
    textDecodeLoop (utf8Encode s) = s :=
  textDecodeGo_encode s (utf8Encode s).length (Nat.le_refl _)

/-- When the byte stream does not begin with the BOM, `textDecode` is the
plain decode loop. -/
theorem textDecode_of_take3_ne {bytes : List Nat}
    (h : bytes.take 3 ≠ [0xEF, 0xBB, 0xBF]) :
    textDecode bytes = textDecodeLoop bytes := by
  match bytes with
  | [] => rfl
  | [b0] => rfl
  | [b0, b1] => rfl
  | b0 :: b1 :: b2 :: rest =>
    unfold textDecode
    dsimp only
    rw [if_neg]
    intro hcon
    apply h
    simp [List.take_succ_cons, hcon.1, hcon.2.1, hcon.2.2]

/-- The encoding of a string not beginning with `U+FEFF` never starts
with the three BOM bytes. -/
theorem utf8Encode_take3_ne_bom {c : Char} (hc : c ≠ Char.ofNat 0xFEFF)
    (s : List Char) :
    (utf8EncodeChar c ++ utf8Encode s).take 3 ≠ [0xEF, 0xBB, 0xBF] := by
  have hv : c.toNat < 0xd800 ∨ (0xdfff < c.toNat ∧ c.toNat < 0x110000) := c.valid
  have hcn : c.toNat ≠ 0xFEFF := by
    intro h
    apply hc
    rw [← Char.ofNat_toNat c, h]
  unfold utf8EncodeChar
  by_cases h1 : c.toNat ≤ 0x7F
  · simp only [if_pos h1, List.cons_append, List.nil_append, List.take_succ_cons]
    intro heq
    have h0 := (List.cons_eq_cons.mp heq).1
    omega
  · by_cases h2 : c.toNat ≤ 0x7FF
    · simp only [if_neg h1, if_pos h2, List.cons_append, List.nil_append,
        List.take_succ_cons]
      intro heq
      have h0 := (List.cons_eq_cons.mp heq).1
      omega
    · by_cases h3 : c.toNat ≤ 0xFFFF
      · simp only [if_neg h1, if_neg h2, if_pos h3, List.cons_append,
          List.nil_append, List.take_succ_cons, List.take_zero]
        intro heq
        have h0 := (List.cons_eq_cons.mp heq).1
        have h1' := (List.cons_eq_cons.mp (List.cons_eq_cons.mp heq).2).1
        have h2' := (List.cons_eq_cons.mp
          (List.cons_eq_cons.mp (List.cons_eq_cons.mp heq).2).2).1
        omega
      · simp only [if_neg h1, if_neg h2, if_neg h3, List.cons_append,
          List.nil_append, List.take_succ_cons]
        intro heq
        have h0 := (List.cons_eq_cons.mp heq).1
        omega

/-- Decode-encode round trip for documents that do not begin with
`U+FEFF`: the non-fatal decoder returns exactly the original text. -/
theorem textDecode_encode_of_head {s : List Char}
    (h : s.head? ≠ some (Char.ofNat 0xFEFF)) :
    textDecode (utf8Encode s) = s := by
  cases s with
  | nil => rfl
  | cons c cs =>
    have hc : c ≠ Char.ofNat 0xFEFF := by
      intro hcc
      exact h (by rw [List.head?_cons, hcc])
    rw [show utf8Encode (c :: cs) = utf8EncodeChar c ++ utf8Encode cs from rfl,
      textDecode_of_take3_ne (utf8Encode_take3_ne_bom hc cs)]
    exact textDecodeLoop_encode (c :: cs)

/-!
## Claims
-/

/-- C1: for every installed content map and requested path, the Content
Store lookup resolves in exactly the order: exact match; then (only when
the path has no extension, i.e. contains no `.`) the `index.html`
directory fallback chosen by trailing slash; then the case-insensitive
linear scan with the first match in iteration order winning; otherwise it
fails.  Moreover, for a ContentSet containing `foo/index.html` and no
`foo.html`, lookups of `foo/` and of `foo` both resolve to
`foo/index.html`. -/
theorem lookup_resolution_order :
    (∀ (files : List (Path × Content)) (p : Path),
      lookup files p = lookupSpec files p) ∧
    lookup [((("foo/index.html").data), (("x").data))] (("foo").data)
      = some (("x").data) ∧
    lookup [((("foo/index.html").data), (("x").data))] (("foo/").data)
      = some (("x").data) := by
  refine ⟨?_, by decide, by decide⟩
  intro files p
  unfold lookup lookupSpec
  cases h1 : mapGet files p with
  | some v => simp [Option.orElse]
  | none =>
    by_cases hc : '.' ∈ p
    · simp [hc, Option.orElse]
    · cases h2 : mapGet files (indexCandidate p) with
      | some v => simp [hc, h2, Option.orElse]
      | none => simp [hc, h2, Option.orElse]

/-- C2: installing a file map and then looking up any key present in it
returns exactly the stored content (round-trip identity at the Content
Store level).  Key uniqueness holds by construction for JavaScript
objects and is the `Nodup` hypothesis. -/
theorem install_lookup_roundtrip : ∀ (st : SWState) (files : List (Path × Content))
    (opts : Option ContentOptions) (env : SaveEnv) (k : Path) (v : Content),
    (files.map Prod.fst).Nodup → (k, v) ∈ files →
    lookup ((handleSetContent st files opts env).1).contentFiles k = some v := by
  intro st files opts env k v hnd hmem
  exact lookup_of_mapGet (mapGet_of_nodup_mem hnd hmem)

/-- Witness for C2 at a concrete installation. -/
theorem install_lookup_roundtrip_witness :
    lookup ((handleSetContent initialState
        [((("a.txt").data), (("hello").data))] none SaveEnv.ok).1).contentFiles
      (("a.txt").data) = some (("hello").data) :=
  install_lookup_roundtrip initialState
    [((("a.txt").data), (("hello").data))] none SaveEnv.ok
    (("a.txt").data) (("hello").data) (by decide) (by decide)

/-- C3: the extractor strips a common prefix exactly when the discovered
index entry contains exactly one path separator, in which case the prefix
is the entry's first segment plus `/` (so an `index.html` two or more
levels deep never triggers stripping); and for the concrete archive
`mypkg/index.html`, `mypkg/style.css`, the stored keys are `index.html`
and `style.css` and a lookup of `mypkg/index.html` fails. -/
theorem common_prefix_rule :
    (∀ fileList : List Path, findCommonPrefix fileList = commonPrefixSpec fileList) ∧
    extractFiles [((("mypkg/index.html").data), (("x").data)),
        ((("mypkg/style.css").data), (("y").data))]
      = [((("index.html").data), (("x").data)), ((("style.css").data), (("y").data))] ∧
    lookup [((("index.html").data), (("x").data)), ((("style.css").data), (("y").data))]
      (("mypkg/index.html").data) = none := by
  refine ⟨?_, by decide, by decide⟩
  intro fileList
  simp only [ findCommonPrefix, commonPrefixSpec]
  generalize (fileList.filter
    (fun f => (".html").data.isSuffixOf f || (".htm").data.isSuffixOf f)) = htmlFiles
  by_cases hlen : htmlFiles.length = 0
  · have hnil : htmlFiles = [] := List.length_eq_zero.mp hlen
    subst hnil
    simp
  · rw [if_neg hlen]
    cases hfind : htmlFiles.find?
        (fun f => f == ("index.html").data || ("/index.html").data.isSuffixOf f) with
    | none => rfl
    | some indexFile =>
      dsimp only
      by_cases hcnt : indexFile.count '/' = 1
      · have hmem : '/' ∈ indexFile := List.count_pos_iff.mp (by omega)
        have hcontains : indexFile.contains '/' = true := List.elem_iff.mpr hmem
        have hne : indexFile ≠ [] := by
          intro h
          rw [h] at hmem
          cases hmem
        rw [if_pos ⟨hne, hcontains⟩]
        have hlen2 : (splitSlash indexFile).length = 2 := by
          rw [splitSlash_length, hcnt]
        rw [if_pos hlen2, if_pos hcnt, splitSlash_headD]
      · rw [if_neg hcnt]
        by_cases hcon : indexFile ≠ [] ∧ indexFile.contains '/' = true
        · rw [if_pos hcon]
          have hlen2 : (splitSlash indexFile).length ≠ 2 := by
            rw [splitSlash_length]
            omega
          rw [if_neg hlen2]
        · rw [if_neg hcon]

/-- Shared fact: the `CONTENT_READY` acknowledgment always reports the
size of the newly installed map, whatever the persistence outcome. -/
theorem handleSetContent_fileCount (st : SWState) (files : List (Path × Content))
    (opts : Option ContentOptions) (env : SaveEnv) :
    (handleSetContent st files opts env).2.fileCount = files.length := by
  cases env with
  | ok => rfl
  | txFail n m => rfl
  | setupFail n m =>
    by_cases hq : isQuotaError n m = true
    · simp [handleSetContent, saveToIndexedDB, hq]
    · simp [handleSetContent, saveToIndexedDB, hq]

/-- C4 counterexample: in a not-ready context, the request for
`/viewer/%` is not answered with a 503 (or any) response: the
`decodeURIComponent` call throws before the readiness check, rejecting
the handler. -/
theorem viewer_503_counterexample :
    initialState.contentReady = false ∧
    handleViewerRequest initialState (("/viewer/%").data) 0 = Except.error () :=
  ⟨rfl, by decide⟩

/-- C4 (amended): for every request under the virtual prefix whose path
percent-decodes successfully, if the state is not ready or the content
map is empty, the response is the 503 plain-text "no content loaded"
response, regardless of the requested path. -/
theorem viewer_503_when_not_ready : ∀ (st : SWState) (pathname : List Char)
    (i : Nat) (p : Path),
    decodeURIComponent (rawFilePath pathname i) = some p →
    (st.contentReady = false ∨ st.contentFiles = []) →
    handleViewerRequest st pathname i =
      Except.ok ⟨503, ("text/plain").data, notLoadedBody⟩ :=
  fun _ _ _ _ hdec hnr => handleViewerRequest_not_ready hdec hnr

/-- Witness for C4 (amended) at the concrete request `/viewer/`. -/
theorem viewer_503_when_not_ready_witness :
    handleViewerRequest initialState (("/viewer/").data) 0 =
      Except.ok ⟨503, ("text/plain").data, notLoadedBody⟩ :=
  viewer_503_when_not_ready initialState (("/viewer/").data) 0
    (("index.html").data) (by decide) (Or.inl rfl)

/-- C5: against a ready, non-empty ContentSet, a request whose decoded
path fails all lookup steps is answered 404 with a plain-text body naming
the unresolved path; concretely, `/viewer/missing.png` yields a 404 whose
body is `File not found: missing.png`. -/
theorem viewer_404_names_path :
    (∀ (st : SWState) (pathname : List Char) (i : Nat) (p : Path),
      decodeURIComponent (rawFilePath pathname i) = some p →
      st.contentReady = true → st.contentFiles ≠ [] →
      lookup st.contentFiles p = none →
      handleViewerRequest st pathname i =
        Except.ok ⟨404, ("text/plain").data, ("File not found: ").data ++ p⟩) ∧
    handleViewerRequest
        { contentFiles := [((("index.html").data), (("x").data))]
        , contentReady := true
        , contentOptions := { openExternalLinksInNewWindow := true } }
        (("/viewer/missing.png").data) 0 =
      Except.ok ⟨404, ("text/plain").data, ("File not found: missing.png").data⟩ := by
  constructor
  · intro st pathname i p hdec hready hne hlook
    have hcond : ¬ (st.contentReady = false ∨ st.contentFiles.length = 0) := by
      push_neg
      refine ⟨by rw [hready]; simp, ?_⟩
      rwa [Ne, List.length_eq_zero]
    simp only [handleViewerRequest, hdec, serveFile]
    rw [if_neg hcond, hlook]
  · decide

/-- Witness for C5 at a concrete ready store lacking the requested key. -/
theorem viewer_404_names_path_witness :
    handleViewerRequest
        { contentFiles := [((("style.css").data), (("y").data))]
        , contentReady := true
        , contentOptions := { openExternalLinksInNewWindow := true } }
        (("/viewer/missing.png").data) 0 =
      Except.ok ⟨404, ("text/plain").data, ("File not found: missing.png").data⟩ :=
  viewer_404_names_path.1
    { contentFiles := [((("style.css").data), (("y").data))]
    , contentReady := true
    , contentOptions := { openExternalLinksInNewWindow := true } }
    (("/viewer/missing.png").data) 0 (("missing.png").data)
    (by decide) rfl (by decide) (by decide)

set_option maxRecDepth 20000 in
/-- C6 counterexample: the transformer is not byte-preserving on the rest
of the document.  A payload whose bytes are a UTF-8 BOM followed by
`</body>` (the tag occurring exactly once) loses the BOM: the output is
exactly the encoding of the script followed by `</body>`, and in
particular no longer starts with the three BOM bytes that preceded the
insertion point.  Likewise an invalid byte (`0xFF`) before the tag is
replaced by the encoding of `U+FFFD` rather than preserved. -/
theorem transformer_bom_counterexample :
    injectExternalLinkHandler ([0xEF, 0xBB, 0xBF] ++ utf8Encode bodyCloseTag)
      = utf8Encode (EXTERNAL_LINK_HANDLER_SCRIPT ++ bodyCloseTag) ∧
    (injectExternalLinkHandler ([0xEF, 0xBB, 0xBF] ++ utf8Encode bodyCloseTag)).take 3
      ≠ [0xEF, 0xBB, 0xBF] ∧
    (injectExternalLinkHandler ([0xFF] ++ utf8Encode bodyCloseTag)).take 1
      ≠ [0xFF] ∧
    (injectExternalLinkHandler ([0xFF] ++ utf8Encode bodyCloseTag)).take 3
      = [0xEF, 0xBF, 0xBD] := by
  refine ⟨by decide, by decide, by decide, by decide⟩

/-- C6 (amended): for every payload that is the UTF-8 encoding of a
document not beginning with `U+FEFF` and containing `</body>` exactly
once, the output is the input bytes with exactly the script block's UTF-8
encoding inserted immediately before that `</body>` and every other byte
unchanged; with no `</body>` the insertion point is the unique `</html>`,
and with neither tag the script bytes are appended.  For payloads that
begin with a UTF-8 BOM or contain ill-formed UTF-8, the decoder consumes
the BOM and substitutes `U+FFFD`, so byte identity fails there
(counterexample above). -/
theorem transformer_injection_bytes :
    (∀ a b : List Char,
      (a ++ bodyCloseTag ++ b).head? ≠ some (Char.ofNat 0xFEFF) →
      (∀ j < (a ++ bodyCloseTag ++ b).length,
          occursAtB bodyCloseTag (a ++ bodyCloseTag ++ b) j = true → j = a.length) →
      injectExternalLinkHandler (utf8Encode (a ++ bodyCloseTag ++ b))
        = utf8Encode a ++ utf8Encode EXTERNAL_LINK_HANDLER_SCRIPT
          ++ utf8Encode (bodyCloseTag ++ b)) ∧
    (∀ a b : List Char,
      (a ++ htmlCloseTag ++ b).head? ≠ some (Char.ofNat 0xFEFF) →
      (∀ j < (a ++ htmlCloseTag ++ b).length,
          occursAtB bodyCloseTag (a ++ htmlCloseTag ++ b) j = false) →
      (∀ j < (a ++ htmlCloseTag ++ b).length,
          occursAtB htmlCloseTag (a ++ htmlCloseTag ++ b) j = true → j = a.length) →
      injectExternalLinkHandler (utf8Encode (a ++ htmlCloseTag ++ b))
        = utf8Encode a ++ utf8Encode EXTERNAL_LINK_HANDLER_SCRIPT
          ++ utf8Encode (htmlCloseTag ++ b)) ∧
    (∀ s : List Char,
      s.head? ≠ some (Char.ofNat 0xFEFF) →
      (∀ j < s.length, occursAtB bodyCloseTag s j = false) →
      (∀ j < s.length, occursAtB htmlCloseTag s j = false) →
      injectExternalLinkHandler (utf8Encode s)
        = utf8Encode s ++ utf8Encode EXTERNAL_LINK_HANDLER_SCRIPT) := by
  refine ⟨?_, ?_, ?_⟩
  · intro a b hbom huniq
    unfold injectExternalLinkHandler
    rw [textDecode_encode_of_head hbom, injectIntoHtmlText_body a b huniq,
      utf8Encode_append, utf8Encode_append]
  · intro a b hbom hnb huniq
    unfold injectExternalLinkHandler
    rw [textDecode_encode_of_head hbom, injectIntoHtmlText_html a b hnb huniq,
      utf8Encode_append, utf8Encode_append]
  · intro s hbom hnb hnh
    unfold injectExternalLinkHandler
    rw [textDecode_encode_of_head hbom, injectIntoHtmlText_append s hnb hnh,
      utf8Encode_append]

/-- Witness for C6 (amended) on a concrete BOM-free document with one
`</body>`. -/
theorem transformer_injection_bytes_witness :
    injectExternalLinkHandler
        (utf8Encode ((("<p>hi").data) ++ bodyCloseTag ++ (("</html>").data)))
      = utf8Encode (("<p>hi").data) ++ utf8Encode EXTERNAL_LINK_HANDLER_SCRIPT
        ++ utf8Encode (bodyCloseTag ++ (("</html>").data)) :=
  transformer_injection_bytes.1 (("<p>hi").data) (("</html>").data)
    (by decide) (by decide)

/-- C7: when persistence fails with a quota error (whether as the
synchronous-throw classification or as a rejected transaction), the
install still completes in memory: the state is ready with the new files
servable, and the `CONTENT_READY` acknowledgment carries
`QUOTA_EXCEEDED` in its `storageError` field. -/
theorem quota_failure_keeps_serving : ∀ (st : SWState)
    (files : List (Path × Content)) (opts : Option ContentOptions) (env : SaveEnv),
    envIsQuota env = true →
    ((handleSetContent st files opts env).1.contentReady = true) ∧
    ((handleSetContent st files opts env).1.contentFiles = files) ∧
    ((handleSetContent st files opts env).2.fileCount = files.length) ∧
    ((handleSetContent st files opts env).2.storageError = some ("QUOTA_EXCEEDED")) ∧
    (∀ (k : Path) (v : Content), (files.map Prod.fst).Nodup → (k, v) ∈ files →
      lookup ((handleSetContent st files opts env).1).contentFiles k = some v) := by
  intro st files opts env hq
  refine ⟨rfl, rfl, handleSetContent_fileCount st files opts env, ?_, ?_⟩
  · cases env with
    | ok => cases hq
    | txFail n m =>
      have hql : isQuotaError n m = true := hq
      simp [handleSetContent, saveToIndexedDB, hql]
    | setupFail n m =>
      have hql : isQuotaError n m = true := hq
      simp [handleSetContent, saveToIndexedDB, hql]
  · intro k v hnd hmem
    exact lookup_of_mapGet (mapGet_of_nodup_mem hnd hmem)

/-- Witness for C7 at a concrete quota-throwing save. -/
theorem quota_failure_keeps_serving_witness :
    ((handleSetContent initialState [((("index.html").data), (("x").data))] none
        (SaveEnv.setupFail ("QuotaExceededError") (""))).1.contentReady = true) ∧
    ((handleSetContent initialState [((("index.html").data), (("x").data))] none
        (SaveEnv.setupFail ("QuotaExceededError") (""))).2.storageError
      = some ("QUOTA_EXCEEDED")) := by
  have h := quota_failure_keeps_serving initialState
    [((("index.html").data), (("x").data))] none
    (SaveEnv.setupFail ("QuotaExceededError") ("")) (by decide)
  exact ⟨h.1, h.2.2.2.1⟩

/-- C8 counterexample: a transaction error during the read makes
`loadFromIndexedDB` reject (its `catch` only guards the synchronous part
and the awaited open), contradicting "never throws or rejects". -/
theorem load_rejects_counterexample :
    loadFromIndexedDB (LoadEnv.txFail ("AbortError") ("boom"))
      = Except.error (("AbortError"), ("boom")) := rfl

/-- C8 (amended): `load()` returns the previously saved pair on a
successful read, and degrades to `{null, null}` when nothing was saved or
when opening/setup fails; but a transaction error during the read
propagates as a rejection instead of degrading. -/
theorem load_failure_behaviour :
    (∀ (c : Option (List (Path × Content))) (o : Option Bool),
      loadFromIndexedDB (LoadEnv.ok c o) = Except.ok (c, o)) ∧
    (∀ n m, loadFromIndexedDB (LoadEnv.openFail n m) = Except.ok (none, none)) ∧
    (∀ n m, loadFromIndexedDB (LoadEnv.txFail n m) = Except.error (n, m)) :=
  ⟨fun _ _ => rfl, fun _ _ => rfl, fun _ _ => rfl⟩

/-- C9 counterexample: even against a ready, non-empty ContentSet, the
request `/viewer/%zz` makes the handler throw (reject) rather than
produce an HTTP-style response. -/
theorem viewer_requests_throw_counterexample :
    handleViewerRequest
      { contentFiles := [((("index.html").data), (("x").data))]
      , contentReady := true
      , contentOptions := { openExternalLinksInNewWindow := true } }
      (("/viewer/%zz").data) 0 = Except.error () := by decide

/-- C9 (amended): for every intercepted request under the virtual prefix
whose path percent-decodes successfully, the handler produces an
HTTP-style response with status 200, 404 or 503 and never throws; a
malformed percent-escape instead makes the decode step throw. -/
theorem viewer_requests_total_after_decode : ∀ (st : SWState)
    (pathname : List Char) (i : Nat) (p : Path),
    decodeURIComponent (rawFilePath pathname i) = some p →
    ∃ r : SWResponse, handleViewerRequest st pathname i = Except.ok r ∧
      (r.status = 200 ∨ r.status = 404 ∨ r.status = 503) := by
  intro st pathname i p hdec
  refine ⟨serveFile st p, by simp only [handleViewerRequest, hdec], ?_⟩
  unfold serveFile
  by_cases hc : st.contentReady = false ∨ st.contentFiles.length = 0
  · rw [if_pos hc]
    right; right; rfl
  · rw [if_neg hc]
    cases lookup st.contentFiles p with
    | some fileData => left; rfl
    | none => right; left; rfl

/-- Witness for C9 (amended) at a concrete decodable request. -/
theorem viewer_requests_total_after_decode_witness :
    ∃ r : SWResponse, handleViewerRequest initialState (("/viewer/x.png").data) 0
        = Except.ok r ∧ (r.status = 200 ∨ r.status = 404 ∨ r.status = 503) :=
  viewer_requests_total_after_decode initialState (("/viewer/x.png").data) 0
    (("x.png").data) (by decide)

/-- C10 counterexample: after installing an empty file map the state is
ready with fileCount 0, but not literally *every* subsequent viewer
request is answered 503: a request whose path has a malformed
percent-escape rejects at the decode step instead. -/
theorem empty_install_counterexample :
    ((handleSetContent initialState [] none SaveEnv.ok).1.contentReady = true) ∧
    ((handleSetContent initialState [] none SaveEnv.ok).2.fileCount = 0) ∧
    handleViewerRequest (handleSetContent initialState [] none SaveEnv.ok).1
      (("/viewer/%").data) 0 = Except.error () := by
  refine ⟨rfl, rfl, by decide⟩

/-- C10 (amended): installing an empty file map sets the serving state to
ready, acknowledges `CONTENT_READY` with fileCount 0, makes `GET_STATUS`
report `ready: true, fileCount: 0`, and yet every subsequent viewer
request whose path percent-decodes successfully is still answered with
the 503 "no content loaded" response. -/
theorem empty_install_serves_503 : ∀ (st : SWState) (opts : Option ContentOptions)
    (env : SaveEnv),
    ((handleSetContent st [] opts env).1.contentReady = true) ∧
    ((handleSetContent st [] opts env).2.fileCount = 0) ∧
    (handleGetStatus (handleSetContent st [] opts env).1
      = { ready := true, fileCount := 0, version := ("1.7.0") }) ∧
    (∀ (pathname : List Char) (i : Nat) (p : Path),
      decodeURIComponent (rawFilePath pathname i) = some p →
      handleViewerRequest (handleSetContent st [] opts env).1 pathname i =
        Except.ok ⟨503, ("text/plain").data, notLoadedBody⟩) := by
  intro st opts env
  refine ⟨rfl, handleSetContent_fileCount st [] opts env, rfl, ?_⟩
  intro pathname i p hdec
  exact handleViewerRequest_not_ready hdec (Or.inr rfl)

/-- Witness for C10 (amended) at a concrete empty install. -/
theorem empty_install_serves_503_witness :
    (handleGetStatus (handleSetContent initialState [] none SaveEnv.ok).1
      = { ready := true, fileCount := 0, version := ("1.7.0") }) ∧
    handleViewerRequest (handleSetContent initialState [] none SaveEnv.ok).1
        (("/viewer/").data) 0 =
      Except.ok ⟨503, ("text/plain").data, notLoadedBody⟩ := by
  have h := empty_install_serves_503 initialState none SaveEnv.ok
  exact ⟨h.2.2.1, h.2.2.2 (("/viewer/").data) 0 (("index.html").data) (by decide)⟩

end ExeViewer
